import Mathlib

set_option autoImplicit false

namespace VTNDB

/-!  Shallow embedding of the vtndb terminal wiki browser (src/ndb.py,
src/terminal.py, src/wiki.py).  Text is modelled as `List Char`, bytes as `Nat`,
Python `int` as `Int` where subtraction can go negative. -/

namespace TextRendererCore

/-- Python `text.find(c)` specialised to a single character: the index of the
first occurrence of `c` in the list, or `none` when absent (Python returns -1). -/
def findChar (c : Char) : List Char → Option Nat
  | [] => none
  | d :: rest => if d = c then some 0 else (findChar c rest).map (· + 1)

/-- `text.replace("\r\n", "\n")` at the top of `wordWrap` (ndb.py line 114):
left-to-right, non-overlapping replacement of CRLF pairs by LF. -/
def normCRLF : List Char → List Char
  | [] => []
  | [c] => [c]
  | c :: d :: rest =>
    if c = '\r' ∧ d = '\n' then '\n' :: normCRLF rest
    else c :: normCRLF (d :: rest)

/-- The nested `joinLines()` helper of `wordWrap` (ndb.py lines 119-135): flush
`curLine` onto `newText`, inserting a newline separator unless `newText` is
empty or already ends with one.  The caller's `curLine` becomes empty. -/
def joinLines (newText curLine : List Char) : List Char :=
  if curLine = [] then newText
  else if newText = [] then curLine
  else if newText.getLast? = some '\n' then newText ++ curLine
  else newText ++ '\n' :: curLine

/-- The `while text:` loop of `wordWrap` (ndb.py lines 142-199), as a function of
the loop state `(text, newText, curLine)`.  `spaceLeft` is computed in `Int`
because the Python expression `self.terminal.columns - len(curLine)` can be
negative (after the word-exactly-fits branch appends a trailing `"\n"`).

`fuel` bounds the number of iterations.  For `W ≥ 1` every iteration either
consumes at least one character of `text` or flushes a nonempty `curLine`, and
two flushes are never consecutive, so the Python loop makes at most
`2*len(text)+2` iterations and the fuel chosen in `wordWrap` below never runs
out.  (For `W = 0` the Python loop does not terminate on most inputs; on
exhausted fuel this model flushes the accumulated state.)

The newline test (ndb.py lines 148-161) is factored out as `nlCut`:
`some chunkLen` when the text contains a newline and the chunk up to and
including it fits within `spaceLeft + 1` columns of the current line (the
newline itself consumes no column); the loop then consumes that chunk and
flushes.  `none` otherwise (fall through to the word logic). -/
def nlCut (W : Nat) (curLine text : List Char) : Option Nat :=
  match findChar '\n' text with
  | some newlinePos =>
    if (newlinePos : Int) + 1 ≤ ((W : Int) - curLine.length) + 1 then some (newlinePos + 1)
    else none
  | none => none

/-- The `while text:` loop of `wordWrap`, see the comment above `nlCut`. -/
def wrapLoop (W : Nat) : Nat → List Char → List Char → List Char → List Char
  | 0, _, newText, curLine => joinLines newText curLine
  | fuel + 1, text, newText, curLine =>
    if text = [] then joinLines newText curLine
    -- "Just append the end."  (`spaceLeft()` is `W - len(curLine)`.)
    else if (text.length : Int) ≤ (W : Int) - curLine.length then
      joinLines newText (curLine ++ text)
    else
      match nlCut W curLine text with
      | some chunkLen =>
        wrapLoop W fuel (text.drop chunkLen)
          (joinLines newText (curLine ++ text.take chunkLen)) []
      | none =>
        match findChar ' ' text with
        | some spacePos =>
          if (spacePos : Int) < (W : Int) - curLine.length then
            -- room for the word AND the space
            wrapLoop W fuel (text.drop (spacePos + 1)) newText
              (curLine ++ text.take (spacePos + 1))
          else if (spacePos : Int) = (W : Int) - curLine.length then
            -- room for the word but not the space: newline instead
            wrapLoop W fuel (text.drop (spacePos + 1)) newText
              (curLine ++ text.take spacePos ++ ['\n'])
          else if curLine ≠ [] then
            -- defer the word to the next line
            wrapLoop W fuel text (joinLines newText curLine) []
          else
            -- word longer than wrappable: hard-split at `width = spaceLeft()`
            wrapLoop W fuel (text.drop ((W : Int) - (curLine.length : Int)).toNat)
              (joinLines newText (text.take ((W : Int) - (curLine.length : Int)).toNat)) []
        | none =>
          -- no space: the entire rest of the text is a single word
          if (text.length : Int) < (W : Int) - curLine.length then
            wrapLoop W fuel (text.drop text.length) newText (curLine ++ text.take text.length)
          else if (text.length : Int) = (W : Int) - curLine.length then
            wrapLoop W fuel (text.drop text.length) newText (curLine ++ text.take text.length)
          else if curLine ≠ [] then
            wrapLoop W fuel text (joinLines newText curLine) []
          else
            wrapLoop W fuel (text.drop ((W : Int) - (curLine.length : Int)).toNat)
              (joinLines newText (text.take ((W : Int) - (curLine.length : Int)).toNat)) []

/-- `TextRendererCore.wordWrap` (ndb.py lines 112-203) at terminal width `W`. -/
def wordWrap (W : Nat) (text : List Char) : List Char :=
  wrapLoop W (2 * (normCRLF text).length + 4) (normCRLF text) [] []

/-- Python `str.split("\n")`, used by `displayText` (ndb.py line 208) to turn the
word-wrapped text into the list of display lines. -/
def lines : List Char → List (List Char)
  | [] => [[]]
  | c :: rest =>
    if c = '\n' then [] :: lines rest
    else
      match lines rest with
      | [] => [[c]]
      | l :: ls => (c :: l) :: ls

/-- The scroll-relevant state of a `TextRendererCore` (ndb.py lines 106-110):
`rows = (bottom - top) + 1`, `text` is the word-wrapped list of display lines
set by `displayText`, and `line` is the scroll offset.  `line` is an `Int`
because the Python clamp `len(self.text) - self.rows` can be negative. -/
structure State where
  rows : Nat
  text : List (List Char)
  line : Int
  deriving DecidableEq, Repr

/-- `TextRendererCore.scrollUp` (ndb.py lines 222-233), terminal output omitted. -/
def scrollUp (s : State) : State :=
  if 0 < s.line then { s with line := s.line - 1 } else s

/-- `TextRendererCore.scrollDown` (ndb.py lines 235-246), terminal output omitted. -/
def scrollDown (s : State) : State :=
  if s.line < (s.text.length : Int) - (s.rows : Int) then { s with line := s.line + 1 } else s

/-- `TextRendererCore.pageUp` (ndb.py lines 248-263), terminal output omitted. -/
def pageUp (s : State) : State :=
  let l := s.line - ((s.rows : Int) - 1)
  let l := if l < 0 then 0 else l
  if l ≠ s.line then { s with line := l } else s

/-- `TextRendererCore.pageDown` (ndb.py lines 265-280), terminal output omitted. -/
def pageDown (s : State) : State :=
  let l := s.line + ((s.rows : Int) - 1)
  let l :=
    if l > (s.text.length : Int) - (s.rows : Int) then (s.text.length : Int) - (s.rows : Int)
    else l
  if l ≠ s.line then { s with line := l } else s

/-- `TextRendererCore.goToTop` (ndb.py lines 282-294), terminal output omitted. -/
def goToTop (s : State) : State :=
  if (0 : Int) ≠ s.line then { s with line := 0 } else s

/-- `TextRendererCore.goToBottom` (ndb.py lines 296-308), terminal output omitted. -/
def goToBottom (s : State) : State :=
  let l := (s.text.length : Int) - (s.rows : Int)
  if l ≠ s.line then { s with line := l } else s

/-- One of the six scroll operations of the layout engine. -/
inductive ScrollOp
  | scrollUp | scrollDown | pageUp | pageDown | goToTop | goToBottom
  deriving DecidableEq, Repr

def applyOp : ScrollOp → State → State
  | .scrollUp, s => scrollUp s
  | .scrollDown, s => scrollDown s
  | .pageUp, s => pageUp s
  | .pageDown, s => pageDown s
  | .goToTop, s => goToTop s
  | .goToBottom, s => goToBottom s

/-- Apply a sequence of scroll operations in order. -/
def runOps (ops : List ScrollOp) (s : State) : State :=
  ops.foldl (fun s op => applyOp op s) s

/-- The scroll offset stays between 0 and `lineCount - viewportRows`. -/
def ScrollInv (s : State) : Prop :=
  0 ≤ s.line ∧ s.line ≤ (s.text.length : Int) - (s.rows : Int)

end TextRendererCore

namespace Navigation

/-- `Navigation` (ndb.py lines 55-74): the page-identifier history stack, most
recent identifier at the end.  URIs are `List Char`. -/
structure State where
  stack : List (List Char)
  deriving DecidableEq, Repr

/-- `Navigation.navigate` (ndb.py lines 60-62): push the uri, resolve it.  The
wiki's `getPage` is the abstract resolver `resolve`. -/
def navigate {P : Type} (resolve : List Char → P) (nav : State) (uri : List Char) :
    State × P :=
  ({ stack := nav.stack ++ [uri] }, resolve uri)

/-- `Navigation.canGoBack` (ndb.py lines 64-65). -/
def canGoBack (nav : State) : Bool :=
  decide (1 < nav.stack.length)

/-- `Navigation.back` (ndb.py lines 67-74).  The `NavigationException` raised
when `canGoBack()` is false is `Except.error ()`; the raise happens before any
mutation, so the state component is returned unchanged in that case. -/
def back {P : Type} (resolve : List Char → P) (nav : State) : State × Except Unit P :=
  if !canGoBack nav then (nav, .error ())
  else
    let stack := nav.stack.dropLast
    ({ stack := stack }, .ok (resolve (stack.getLastD [])))

end Navigation

namespace Terminal

/-- First index where `p` holds (the scan loop of `_recvResponseImpl`). -/
def findIdxOpt {α : Type} (p : α → Bool) : List α → Option Nat
  | [] => none
  | a :: rest => if p a then some 0 else (findIdxOpt p rest).map (· + 1)

def ESC : Nat := 27
/-- `Terminal.UP = b"[A"` (terminal.py line 36); the escape byte itself is
stripped by the framer before frames are compared against these codes. -/
def UP : List Nat := [91, 65]
def DOWN : List Nat := [91, 66]
def LEFT : List Nat := [91, 68]
def RIGHT : List Nat := [91, 67]

/-- The framer state (terminal.py lines 42-45): `leftover` bytes pushed back
from a previous frame, `serial` the bytes the device delivers before the next
inter-byte gap (an empty read signals frame completion), and `pending` the FIFO
queue of decoded input units. -/
structure State where
  leftover : List Nat
  serial : List Nat
  pending : List (List Nat)
  deriving DecidableEq, Repr

/-- "prefer previously buffered leftover bytes over new reads"
(terminal.py lines 130-135). -/
def readByte (st : State) : Option Nat × State :=
  match st.leftover with
  | v :: rest => (some v, { st with leftover := rest })
  | [] =>
    match st.serial with
    | v :: rest => (some v, { st with serial := rest })
    | [] => (none, st)

/-- The parameter-block bytes `0`-`9`, `;`, `?`, `[` accepted inside an escape
frame (terminal.py lines 150-164). -/
def isParamByte (b : Nat) : Bool :=
  (48 ≤ b && b ≤ 57) || b == 59 || b == 63 || b == 91

/-- `Terminal._recvResponseImpl` (terminal.py lines 123-183).  A read returning
no byte (`serial` exhausted) signals frame completion; with `hasTimeout` set the
caller-supplied timeout is modelled as already elapsed at the first empty read.
`none` stands for the paths with no return value: fuel exhaustion models the
Python loop polling forever, and an escape frame with no terminator byte models
the `raise Exception("Should have found end of command marker!")`. -/
def recvResponseImpl (hasTimeout : Bool) : Nat → List Nat → Bool → State →
    Option (List Nat × State)
  | 0, _, _, _ => none
  | fuel + 1, accum, gotResponse, st =>
    match readByte st with
    | (some v, st1) => recvResponseImpl hasTimeout fuel (accum ++ [v]) true st1
    | (none, st1) =>
      if gotResponse || hasTimeout then
        -- queue literal bytes preceding the first escape byte
        let lits := accum.takeWhile (fun b => b ≠ ESC)
        let rest := accum.dropWhile (fun b => b ≠ ESC)
        let st2 := { st1 with pending := st1.pending ++ lits.map (fun b => [b]) }
        match rest with
        | _ :: cmd =>
          match findIdxOpt (fun b => !isParamByte b) cmd with
          | some offs =>
            some (cmd.take (offs + 1),
              { st2 with leftover := st2.leftover ++ cmd.drop (offs + 1) })
          | none => none
        | [] =>
          if hasTimeout then some ([], st2)
          else recvResponseImpl hasTimeout fuel [] false st2
      else recvResponseImpl hasTimeout fuel accum gotResponse st1

/-- `Terminal.recvResponse` (terminal.py lines 115-121): arrow-key frames found
while waiting for a response are queued as pending input and skipped. -/
def recvResponse (hasTimeout : Bool) : Nat → State → Option (List Nat × State)
  | 0, _ => none
  | fuel + 1, st =>
    match recvResponseImpl hasTimeout (st.leftover.length + st.serial.length + 4) [] false st with
    | none => none
    | some (resp, st1) =>
      if resp = UP || resp = DOWN || resp = LEFT || resp = RIGHT then
        recvResponse hasTimeout fuel { st1 with pending := st1.pending ++ [resp] }
      else some (resp, st1)

/-- `recvResponse` with fuel sufficient for the buffered bytes. -/
def recvResponseTop (hasTimeout : Bool) (st : State) : Option (List Nat × State) :=
  recvResponse hasTimeout (st.leftover.length + st.serial.length + 4) st

def isDigitByte (b : Nat) : Bool := 48 ≤ b && b ≤ 57

/-- Python `int(...)` on the decoded digit bytes of a cursor report. -/
def parseDigits (l : List Nat) : Option Nat :=
  if !l.isEmpty && l.all isDigitByte then
    some (l.foldl (fun a b => 10 * a + (b - 48)) 0)
  else none

/-- `Terminal.fetchCursor` (terminal.py lines 81-88): issue the cursor-report
request (output bytes are not modelled), block for a framed response of shape
`[row;colR`, and parse it.  `none` stands for every raising/diverging path
(`Exception("Invalid response for cursor fetch!")`, `ValueError`, polling
forever). -/
def fetchCursor (st : State) : Option ((Nat × Nat) × State) :=
  match recvResponseTop false st with
  | none => none
  | some (resp, st1) =>
    if resp.head? = some 91 && resp.getLast? = some 82 then
      let mid := (resp.drop 1).dropLast
      match findIdxOpt (fun b => b == 59) mid with
      | some i =>
        match parseDigits (mid.take i), parseDigits (mid.drop (i + 1)) with
        | some row, some col => some ((row, col), st1)
        | _, _ => none
      | none => none
    else none

/-- Dequeue the head of `pending` (terminal.py lines 192-196). -/
def dequeue (st : State) : Option (List Nat) × State :=
  match st.pending with
  | [] => (none, st)
  | v :: rest => (some v, { st with pending := rest })

/-- `Terminal.recvInput` (terminal.py lines 185-196): pump the response queue
(with a short timeout, the non-arrow response being discarded) only when nothing
is pending, then dequeue one input unit.  `none` models the raising path inside
the pump. -/
def recvInput (st : State) : Option (Option (List Nat) × State) :=
  if st.pending.isEmpty then
    match recvResponseTop true st with
    | none => none
    | some (_, st1) => some (dequeue st1)
  else some (dequeue st)

/-- Modelled from the spec: `Terminal.peekInput` is called by `main` (ndb.py
line 1384) but is not defined in src/terminal.py.  Spec section 9: the
held-arrow deduplication "peeks at not-yet-consumed queued frames"; so like
`recvInput` it pumps the response queue when nothing is pending and then
returns the next queued input unit without dequeuing it. -/
def peekInput (st : State) : Option (Option (List Nat) × State) :=
  if st.pending.isEmpty then
    match recvResponseTop true st with
    | none => none
    | some (_, st1) => some (st1.pending.head?, st1)
  else some (st.pending.head?, st)

/-- The dedup loop of `main` (ndb.py lines 1383-1385):
`while inputVal == terminal.peekInput(): terminal.recvInput()`. -/
def dedupLoop (v : List Nat) : Nat → State → State
  | 0, st => st
  | fuel + 1, st =>
    match peekInput st with
    | none => st
    | some (p, st1) =>
      if p = some v then
        match recvInput st1 with
        | none => st1
        | some (_, st2) => dedupLoop v fuel st2
      else st1

/-- The input-consuming phase of one iteration of `main`'s message loop
(ndb.py lines 1378-1388), together with the number of `scrollUp()` calls the
iteration performs: `renderer.processInput` is invoked once on the surviving
`inputVal`, and calls `self.renderer.scrollUp()` exactly when it is
`Terminal.UP` (ndb.py lines 1200-1201). -/
def mainIteration (st : State) : State × Nat :=
  match recvInput st with
  | none => (st, 0)
  | some (iv, st1) =>
    match iv with
    | none => (st1, 0)
    | some v =>
      let st2 :=
        if v = UP || v = DOWN then
          dedupLoop v (st1.pending.length + st1.serial.length + 2) st1
        else st1
      (st2, if v = UP then 1 else 0)

end Terminal

namespace Renderer

/-- Commands and text sent to the terminal (terminal.py constants; cursor moves
carry their coordinates). -/
inductive TCmd
  | saveCursor | restoreCursor | clearLine | setNormal | setBold | setReverse
  | moveCursor (row col : Int)
  | sendText (s : List Char)
  deriving DecidableEq, Repr

/-- The fields of a wiki page used by `Renderer.processInput`:
`domainRoot` is Python's `page.domain.root`. -/
structure Page where
  path : List Char
  domainRoot : List Char
  links : List (List Char)
  deriving DecidableEq, Repr

/-- The `Renderer` state touched by command submission (ndb.py lines 1011-1016):
the command buffer `input`, the error banner `lastError`, the displayed `page`,
and the terminal geometry. -/
structure RState where
  termRows : Nat
  termCols : Nat
  input : List Char
  lastError : List Char
  page : Page
  deriving DecidableEq, Repr

/-- `Renderer.displayError` (ndb.py lines 1171-1183): a no-op when the message
equals the one already displayed, otherwise paint the banner line and remember
the message. -/
def displayError (st : RState) (error : List Char) : RState × List TCmd :=
  if error = st.lastError then (st, [])
  else
    ({ st with lastError := error },
     [.saveCursor, .moveCursor ((st.termRows : Int) - 1) 1, .clearLine, .setNormal,
      .setBold, .sendText error, .setNormal, .restoreCursor])

/-- `Renderer.clearInput` (ndb.py lines 1157-1169). -/
def clearInput (st : RState) : RState × List TCmd :=
  ({ (displayError st []).1 with input := [] },
   (displayError st []).2 ++
     [.moveCursor (st.termRows : Int) 1, .saveCursor, .setNormal, .setReverse,
      .sendText (List.replicate st.termCols ' '), .restoreCursor])

/-- The `Action` hierarchy (ndb.py lines 12-48). -/
inductive Action
  | nullAction
  | navigateAction (uri : List Char)
  | backAction
  | homeAction
  | helpAction
  | randomAction
  | exitAction
  | settingAction (setting : List Char) (value : Option (List Char))
  deriving DecidableEq, Repr

/-- Python whitespace stripped by `str.strip()`. -/
def isPySpace (c : Char) : Bool :=
  c = ' ' || c = '\t' || c = '\n' || c = '\r' || c = '\x0b' || c = '\x0c'

/-- Python `str.strip()`. -/
def pyStrip (s : List Char) : List Char :=
  ((s.dropWhile isPySpace).reverse.dropWhile isPySpace).reverse

def digitsVal (ds : List Char) : Int :=
  ds.foldl (fun a c => 10 * a + ((c.toNat : Int) - 48)) 0

/-- Python `int(str)`: optional surrounding whitespace, optional sign, at least
one decimal digit; `none` is the `ValueError` path. -/
def pyInt (s : List Char) : Option Int :=
  match pyStrip s with
  | '-' :: ds => if !ds.isEmpty && ds.all Char.isDigit then some (-(digitsVal ds)) else none
  | '+' :: ds => if !ds.isEmpty && ds.all Char.isDigit then some (digitsVal ds) else none
  | ds => if !ds.isEmpty && ds.all Char.isDigit then some (digitsVal ds) else none

/-- Both halves of Python `s.split(c, 1)`; the second component is only used
under a guard that `c` occurs in `s`. -/
def splitFirst (c : Char) (s : List Char) : List Char × List Char :=
  match Terminal.findIdxOpt (fun d => d == c) s with
  | some i => (s.take i, s.drop (i + 1))
  | none => (s, [])

/-- The result of submitting the command line: the updated renderer state, the
action returned to the main loop, the terminal output, and which layout-engine
scroll method was invoked (for `next`/`prev`/`top`/`bottom`). -/
structure SubmitResult where
  st : RState
  action : Option Action
  out : List TCmd
  scroll : Option TextRendererCore.ScrollOp
  deriving DecidableEq, Repr

/-- The `inputVal == b"\n"` branch of `Renderer.processInput` (ndb.py lines
1248-1343) for a page rendered by a plain `TextRendererCore`, whose
`processInput` delegate returns `None` (ndb.py lines 102-103).  `cdTarget`
stands for `os.path.abspath(os.path.join(page.path, newdir))` in the `cd`
branch, which is not modelled further. -/
def processEnter (cdTarget : List Char → List Char → List Char) (st : RState) : SubmitResult :=
  let actual := pyStrip st.input
  if actual = [] then ⟨st, none, [], none⟩
  else if actual.head? = some '!' then
    -- link navigation
    match pyInt (actual.drop 1) with
    | none =>
      ⟨(displayError st "Invalid link navigation request!".toList).1, none,
       (displayError st "Invalid link navigation request!".toList).2, none⟩
    | some n =>
      let link := n - 1
      if link < 0 || (st.page.links.length : Int) ≤ link then
        ⟨(displayError st "Unknown link navigation request!".toList).1, none,
         (displayError st "Unknown link navigation request!".toList).2, none⟩
      else
        let target := st.page.links.getD link.toNat []
        if target.contains ':' || !(target.head? = some '/' : Bool) then
          ⟨st, some (.navigateAction target), [], none⟩
        else
          ⟨st, some (.navigateAction (st.page.domainRoot ++ ':' :: target)), [], none⟩
  else if actual = "back".toList then ⟨st, some .backAction, [], none⟩
  else if actual = "goto".toList || "goto ".toList.isPrefixOf actual then
    if !actual.contains ' ' then
      ⟨(displayError st "No page requested!".toList).1, none,
       (displayError st "No page requested!".toList).2, none⟩
    else
      let newpage := pyStrip (splitFirst ' ' actual).2
      if newpage.contains ':' || !(newpage.head? = some '/' : Bool) then
        ⟨st, some (.navigateAction newpage), [], none⟩
      else
        ⟨st, some (.navigateAction (st.page.domainRoot ++ ':' :: newpage)), [], none⟩
  else if actual = "home".toList then ⟨st, some .homeAction, [], none⟩
  else if actual = "root".toList then ⟨st, some (.navigateAction st.page.domainRoot), [], none⟩
  else if actual = "help".toList then ⟨st, some .helpAction, [], none⟩
  else if actual = "random".toList then ⟨st, some .randomAction, [], none⟩
  else if actual = "exit".toList then ⟨st, some .exitAction, [], none⟩
  else if actual = "next".toList then
    ⟨(clearInput st).1, none, (clearInput st).2, some .pageDown⟩
  else if actual = "prev".toList then
    ⟨(clearInput st).1, none, (clearInput st).2, some .pageUp⟩
  else if actual = "top".toList then
    ⟨(clearInput st).1, none, (clearInput st).2, some .goToTop⟩
  else if actual = "bottom".toList then
    ⟨(clearInput st).1, none, (clearInput st).2, some .goToBottom⟩
  else if actual = "set".toList || "set ".toList.isPrefixOf actual then
    if !actual.contains ' ' then
      ⟨(displayError st "No setting requested!".toList).1, none,
       (displayError st "No setting requested!".toList).2, none⟩
    else
      let setting := pyStrip (splitFirst ' ' actual).2
      if setting.contains '=' then
        ⟨st, some (.settingAction (pyStrip (splitFirst '=' setting).1)
          (some (pyStrip (splitFirst '=' setting).2))), [], none⟩
      else
        ⟨st, some (.settingAction (pyStrip setting) none), [], none⟩
  else if actual = "cd".toList || "cd ".toList.isPrefixOf actual then
    if !actual.contains ' ' then
      ⟨(displayError st "No directory specified!".toList).1, none,
       (displayError st "No directory specified!".toList).2, none⟩
    else
      let newdir := pyStrip (splitFirst ' ' actual).2
      let newpage := cdTarget st.page.path newdir
      let newpage := if newpage = [] then ['/'] else newpage
      ⟨st, some (.navigateAction (st.page.domainRoot ++ ':' :: newpage)), [], none⟩
  else
    ⟨(displayError st ("Unrecognized command ".toList ++ actual)).1, none,
     (displayError st ("Unrecognized command ".toList ++ actual)).2, none⟩

/-- The effect of `main`'s action dispatch (ndb.py lines 1387-1430) on the
navigation stack.  `randomPick` stands for the `random.choice` result's
`f"{page.domain.root}:{page.path}"` uri. -/
def navAfterAction (randomPick : List Char) (nav : Navigation.State) (a : Option Action) :
    Navigation.State :=
  match a with
  | none => nav
  | some .nullAction => nav
  | some (.navigateAction uri) => { stack := nav.stack ++ [uri] }
  | some .backAction => if Navigation.canGoBack nav then { stack := nav.stack.dropLast } else nav
  | some .homeAction => { stack := nav.stack ++ ["NX.INDEX".toList] }
  | some .helpAction => { stack := nav.stack ++ ["LOCAL.HELP".toList] }
  | some .randomAction => { stack := nav.stack ++ [randomPick] }
  | some .exitAction => nav
  | some (.settingAction _ _) => nav

end Renderer

namespace Wiki

/-- The page fields relevant to `Wiki.getAllPages` (wiki.py lines 19-38). -/
structure WPage where
  name : List Char
  path : List Char
  extension : List Char
  deriving DecidableEq, Repr

/-- A `Domain` (wiki.py lines 41-47): `defaultPage`/`error` are the designated
default and error page paths (`defPage`/`er2Page` in the source json). -/
structure WDomain where
  root : List Char
  defaultPage : List Char
  error : List Char
  pages : List WPage
  deriving DecidableEq, Repr

/-- `Wiki.getAllPages` (wiki.py lines 224-232): all pages of the (optionally
filtered) domains whose path differs from their own domain's error page.  Each
page is paired with its domain, standing for the `page.domain` back-reference. -/
def getAllPages (domains : List WDomain) (domain : Option (List Char)) :
    List (WDomain × WPage) :=
  domains.flatMap fun dom =>
    match domain with
    | some d => if d = dom.root then (dom.pages.filter (fun p => p.path != dom.error)).map (fun p => (dom, p)) else []
    | none => (dom.pages.filter (fun p => p.path != dom.error)).map (fun p => (dom, p))

end Wiki

namespace TextRendererCore

/-- Every display line of `s` (the pieces of `lines s`) is at most `W` columns. -/
def linesLE (W : Nat) (s : List Char) : Prop :=
  ∀ l ∈ lines s, l.length ≤ W

/-- The loop invariant of `wordWrap` for `curLine`: it is either a
newline-free incomplete line of at most `W` columns, or a full line of exactly `W`
columns already closed by the `"\n"` appended in the word-exactly-fits branch. -/
def CurOK (W : Nat) (c : List Char) : Prop :=
  ('\n' ∉ c ∧ c.length ≤ W) ∨ (∃ u, c = u ++ ['\n'] ∧ '\n' ∉ u ∧ u.length = W)

end TextRendererCore

end VTNDB

/-! ## Lemmas about `lines`, `joinLines` and `findChar` -/

namespace VTNDB
namespace TextRendererCore

theorem lines_ne_nil (s : List Char) : lines s ≠ [] := by
  match s with
  | [] => simp [lines]
  | c :: rest =>
    by_cases h : c = '\n' <;> simp only [lines, h, if_true, if_false, reduceIte]
    · simp
    · rcases hr : lines rest with _ | ⟨l, ls⟩ <;> simp

theorem lines_nl_cons (s : List Char) : lines ('\n' :: s) = [] :: lines s := by
  simp [lines]

theorem lines_cons_of_ne {c : Char} (h : c ≠ '\n') (s : List Char) :
    lines (c :: s) = (c :: (lines s).headD []) :: (lines s).tail := by
  obtain ⟨l, ls, hls⟩ := List.exists_cons_of_ne_nil (lines_ne_nil s)
  simp [lines, h, hls]

theorem getLastD_of_ne_nil {α : Type} {l : List α} (h : l ≠ []) (d₁ d₂ : α) :
    l.getLastD d₁ = l.getLastD d₂ := by
  induction l generalizing d₁ d₂ with
  | nil => exact absurd rfl h
  | cons a l ih =>
    cases l with
    | nil => rfl
    | cons b m => simp only [List.getLastD_cons]

theorem getLastD_mem {α : Type} {l : List α} (h : l ≠ []) (d : α) : l.getLastD d ∈ l := by
  induction l generalizing d with
  | nil => exact absurd rfl h
  | cons a l ih =>
    rw [List.getLastD_cons]
    cases l with
    | nil => simp [List.getLastD_nil]
    | cons b m => exact List.mem_cons_of_mem a (ih (by simp) a)

theorem lines_append (a b : List Char) :
    lines (a ++ b) =
      (lines a).dropLast ++ ((lines a).getLastD [] ++ (lines b).headD []) :: (lines b).tail := by
  induction a with
  | nil =>
    obtain ⟨l, ls, hls⟩ := List.exists_cons_of_ne_nil (lines_ne_nil b)
    simp [lines, hls]
  | cons c a ih =>
    by_cases hc : c = '\n'
    · subst hc
      rw [List.cons_append, lines_nl_cons, lines_nl_cons, ih]
      obtain ⟨l, ls, hls⟩ := List.exists_cons_of_ne_nil (lines_ne_nil a)
      rw [hls]
      simp [List.getLastD_cons, List.dropLast]
    · rw [List.cons_append, lines_cons_of_ne hc, lines_cons_of_ne hc, ih]
      obtain ⟨l, ls, hls⟩ := List.exists_cons_of_ne_nil (lines_ne_nil a)
      cases ls with
      | nil => simp [hls]
      | cons l2 ls2 =>
        rw [hls]
        simp only [List.headD_cons, List.tail_cons, List.dropLast_cons₂, List.cons_append,
          List.getLastD_cons]

theorem lines_of_not_mem_nl {s : List Char} (h : '\n' ∉ s) : lines s = [s] := by
  induction s with
  | nil => simp [lines]
  | cons c rest ih =>
    have hc : c ≠ '\n' := fun he => h (he ▸ List.mem_cons_self c rest)
    have hr : '\n' ∉ rest := fun hm => h (List.mem_cons_of_mem c hm)
    rw [lines_cons_of_ne hc, ih hr]
    simp

theorem lines_snoc_nl {u : List Char} (h : '\n' ∉ u) : lines (u ++ ['\n']) = [u, []] := by
  rw [lines_append, lines_of_not_mem_nl h]
  simp [lines]

theorem lines_append_nl_cons {a : List Char} (h : '\n' ∉ a) (b : List Char) :
    lines (a ++ '\n' :: b) = a :: lines b := by
  rw [lines_append, lines_of_not_mem_nl h, lines_nl_cons]
  simp

theorem length_le_of_mem_lines {s l : List Char} (h : l ∈ lines s) : l.length ≤ s.length := by
  induction s generalizing l with
  | nil => simp [lines] at h; simp [h]
  | cons c rest ih =>
    by_cases hc : c = '\n'
    · subst hc
      rw [lines_nl_cons] at h
      rcases List.mem_cons.mp h with h | h
      · simp [h]
      · exact (ih h).trans (by simp)
    · rw [lines_cons_of_ne hc] at h
      obtain ⟨x, xs, hx⟩ := List.exists_cons_of_ne_nil (lines_ne_nil rest)
      rw [hx] at h
      rcases List.mem_cons.mp h with h | h
      · have hxm : x ∈ lines rest := hx ▸ List.mem_cons_self x xs
        have hle := ih hxm
        simp only [hx, List.headD_cons] at h
        subst h
        simp only [List.length_cons]
        omega
      · have hm : l ∈ lines rest := hx ▸ List.mem_cons_of_mem x h
        exact (ih hm).trans (by simp)

theorem linesLE_of_length_le {W : Nat} {s : List Char} (h : s.length ≤ W) : linesLE W s :=
  fun _ hl => (length_le_of_mem_lines hl).trans h

theorem lines_eq_nil_nil {s : List Char} (h : lines s = [[]]) : s = [] := by
  cases s with
  | nil => rfl
  | cons c rest =>
    by_cases hc : c = '\n'
    · subst hc
      rw [lines_nl_cons] at h
      exact absurd (List.cons.inj h).2 (lines_ne_nil rest)
    · rw [lines_cons_of_ne hc] at h
      exact absurd (List.cons.inj h).1 (by simp)

theorem getLastD_lines_of_last_nl {s : List Char} (h : s.getLast? = some '\n') :
    (lines s).getLastD [] = [] := by
  induction s with
  | nil => simp at h
  | cons c rest ih =>
    cases rest with
    | nil =>
      have hc : c = '\n' := by simpa using h
      subst hc
      simp [lines]
    | cons d rest2 =>
      have hne : d :: rest2 ≠ [] := by simp
      have hlast : (d :: rest2).getLast? = some '\n' := by
        rwa [List.getLast?_cons_cons] at h
      have ihr := ih hlast
      by_cases hc : c = '\n'
      · subst hc
        rw [lines_nl_cons, List.getLastD_cons]
        exact ihr
      · rw [lines_cons_of_ne hc]
        obtain ⟨x, xs, hx⟩ := List.exists_cons_of_ne_nil (lines_ne_nil (d :: rest2))
        cases xs with
        | nil =>
          rw [hx, List.getLastD_cons, List.getLastD_nil] at ihr
          have : d :: rest2 = [] := lines_eq_nil_nil (by rw [hx, ihr])
          exact absurd this hne
        | cons y ys =>
          rw [hx]
          simp only [List.headD_cons, List.tail_cons]
          rw [hx] at ihr
          simp only [List.getLastD_cons] at ihr ⊢
          exact ihr

theorem headD_mem_lines (s : List Char) : (lines s).headD [] ∈ lines s := by
  obtain ⟨l, ls, hls⟩ := List.exists_cons_of_ne_nil (lines_ne_nil s)
  rw [hls]; simp

theorem getLastD_mem_lines (s : List Char) : (lines s).getLastD [] ∈ lines s :=
  getLastD_mem (lines_ne_nil s) []

theorem linesLE_joinLines {W : Nat} {nt c : List Char}
    (hnt : linesLE W nt) (hc : linesLE W c) : linesLE W (joinLines nt c) := by
  unfold joinLines
  split_ifs with h1 h2 h3
  · exact hnt
  · exact hc
  · -- newText ends with a newline: plain concatenation
    intro l hl
    rw [lines_append] at hl
    rcases List.mem_append.mp hl with h | h
    · exact hnt l ((List.dropLast_sublist _).subset h)
    · rcases List.mem_cons.mp h with h | h
      · rw [getLastD_lines_of_last_nl h3, List.nil_append] at h
        exact h ▸ hc _ (headD_mem_lines c)
      · exact hc l ((List.tail_sublist _).subset h)
  · -- insert a separating newline
    intro l hl
    rw [lines_append, lines_nl_cons] at hl
    rcases List.mem_append.mp hl with h | h
    · exact hnt l ((List.dropLast_sublist _).subset h)
    · rcases List.mem_cons.mp h with h | h
      · simp only [List.headD_cons, List.append_nil] at h
        exact h ▸ hnt _ (getLastD_mem_lines nt)
      · simp only [List.tail_cons] at h
        exact hc l h

theorem linesLE_nil {W : Nat} : linesLE W [] := by
  intro l hl
  simp [lines] at hl
  simp [hl]

theorem CurOK_nil {W : Nat} : CurOK W [] := Or.inl (by simp)

theorem linesLE_of_CurOK {W : Nat} {c : List Char} (h : CurOK W c) : linesLE W c := by
  rcases h with ⟨hnl, hlen⟩ | ⟨u, rfl, hnl, hlen⟩
  · intro l hl
    rw [lines_of_not_mem_nl hnl] at hl
    simp at hl
    exact hl ▸ hlen
  · intro l hl
    rw [lines_snoc_nl hnl] at hl
    rcases List.mem_cons.mp hl with h | h
    · exact h ▸ hlen.le
    · have hnil : l = [] := by simpa using h
      simp [hnil]

theorem findChar_eq_none {c : Char} {s : List Char} (h : findChar c s = none) : c ∉ s := by
  induction s with
  | nil => simp
  | cons d rest ih =>
    by_cases hd : d = c
    · simp only [findChar, if_pos hd] at h
      exact Option.noConfusion h
    · simp only [findChar, if_neg hd] at h
      have hr : findChar c rest = none := by
        rcases he : findChar c rest with _ | k
        · rfl
        · rw [he] at h
          simp at h
      intro hm
      rcases List.mem_cons.mp hm with h2 | h2
      · exact hd h2.symm
      · exact ih hr h2

theorem findChar_spec {c : Char} {s : List Char} {n : Nat} (h : findChar c s = some n) :
    n < s.length ∧ c ∉ s.take n ∧ s = s.take n ++ c :: s.drop (n + 1) := by
  induction s generalizing n with
  | nil => simp [findChar] at h
  | cons d rest ih =>
    by_cases hd : d = c
    · simp only [findChar, if_pos hd] at h
      have hn : n = 0 := by simpa using h.symm
      subst hn
      subst hd
      simp
    · simp only [findChar, if_neg hd] at h
      rcases he : findChar c rest with _ | m
      · rw [he] at h; simp at h
      · rw [he] at h
        have hn : n = m + 1 := by simpa using h.symm
        subst hn
        obtain ⟨h1, h2, h3⟩ := ih he
        refine ⟨by simpa using h1, ?_, ?_⟩
        · simp only [List.take_succ_cons, List.mem_cons, not_or]
          exact ⟨fun hc => hd hc.symm, h2⟩
        · simpa using h3

theorem findChar_take_length {c : Char} {s : List Char} {n : Nat}
    (h : findChar c s = some n) : (s.take n).length = n := by
  have := (findChar_spec h).1
  simp [List.length_take]
  omega

theorem not_mem_take_of_le {c : Char} {s : List Char} {a b : Nat}
    (hab : a ≤ b) (h : c ∉ s.take b) : c ∉ s.take a := by
  intro hm
  apply h
  have : s.take a = (s.take b).take a := by
    rw [List.take_take, Nat.min_eq_left hab]
  exact List.take_subset a (s.take b) (this ▸ hm)

theorem take_succ_of_findChar {c : Char} {s : List Char} {n : Nat}
    (h : findChar c s = some n) : s.take (n + 1) = s.take n ++ [c] := by
  induction s generalizing n with
  | nil => simp [findChar] at h
  | cons d rest ih =>
    by_cases hd : d = c
    · simp only [findChar, if_pos hd] at h
      have hn : n = 0 := by simpa using h.symm
      subst hn
      subst hd
      simp
    · simp only [findChar, if_neg hd] at h
      rcases he : findChar c rest with _ | m
      · rw [he] at h; simp at h
      · rw [he] at h
        have hn : n = m + 1 := by simpa using h.symm
        subst hn
        simp [List.take_succ_cons, ih he]

theorem linesLE_nlfree {W : Nat} {u : List Char} (h : '\n' ∉ u) (hl : u.length ≤ W) :
    linesLE W u := by
  intro l hml
  rw [lines_of_not_mem_nl h] at hml
  have : l = u := by simpa using hml
  exact this ▸ hl

theorem linesLE_snoc_nl {W : Nat} {u : List Char} (h : '\n' ∉ u) (hl : u.length ≤ W) :
    linesLE W (u ++ ['\n']) := by
  intro l hml
  rw [lines_snoc_nl h] at hml
  rcases List.mem_cons.mp hml with h1 | h1
  · exact h1 ▸ hl
  · have : l = [] := by simpa using h1
    simp [this]

theorem nlCut_eq_some {W : Nat} {c text : List Char} {k : Nat}
    (h : nlCut W c text = some k) :
    ∃ n, k = n + 1 ∧ findChar '\n' text = some n ∧ (n : Int) ≤ (W : Int) - c.length := by
  unfold nlCut at h
  rcases he : findChar '\n' text with _ | m
  · rw [he] at h; exact Option.noConfusion h
  · rw [he] at h
    have h2 : (if (m : Int) + 1 ≤ ((W : Int) - c.length) + 1 then some (m + 1) else none)
        = some k := h
    split_ifs at h2 with hcond
    · exact ⟨m, by simpa using h2.symm, rfl, by omega⟩

theorem nlCut_none_take {W : Nat} {c text : List Char} {j : Nat}
    (h : nlCut W c text = none) (hj : (j : Int) ≤ (W : Int) - c.length) :
    '\n' ∉ text.take j := by
  unfold nlCut at h
  rcases he : findChar '\n' text with _ | m
  · exact fun hm => findChar_eq_none he (List.take_subset _ _ hm)
  · rw [he] at h
    have h2 : (if (m : Int) + 1 ≤ ((W : Int) - c.length) + 1 then some (m + 1) else none)
        = none := h
    split_ifs at h2 with hcond
    have hjm : j ≤ m := by omega
    exact not_mem_take_of_le hjm (findChar_spec he).2.1

/-- The central invariant of `wordWrap`: starting from any `newText` all of
whose display lines fit in `W` columns and any `curLine` satisfying `CurOK`,
every display line of the loop's result fits in `W` columns. -/
theorem wrapLoop_linesLE (W : Nat) :
    ∀ (fuel : Nat) (text newText curLine : List Char),
      linesLE W newText → CurOK W curLine →
      linesLE W (wrapLoop W fuel text newText curLine) := by
  intro fuel
  induction fuel with
  | zero =>
    intro text nt c hnt hc
    exact linesLE_joinLines hnt (linesLE_of_CurOK hc)
  | succ fuel ih =>
    intro text nt c hnt hc
    rw [wrapLoop]
    by_cases htext : text = []
    · rw [if_pos htext]
      exact linesLE_joinLines hnt (linesLE_of_CurOK hc)
    rw [if_neg htext]
    have htlen : 1 ≤ text.length := List.length_pos.mpr htext
    by_cases hfit : (text.length : Int) ≤ (W : Int) - c.length
    · rw [if_pos hfit]
      refine linesLE_joinLines hnt (linesLE_of_length_le ?_)
      rcases hc with ⟨_, hle⟩ | ⟨u, rfl, _, hulen⟩
      · rw [List.length_append]; omega
      · exfalso
        have : (u ++ ['\n']).length = W + 1 := by simp [hulen]
        omega
    rw [if_neg hfit]
    rcases hcut : nlCut W c text with _ | chunkLen
    · -- newline branch not taken: Python's word logic
      dsimp only
      rcases hsp : findChar ' ' text with _ | spacePos
      · -- no space in the text: the whole rest is one word, necessarily too long
        dsimp only
        have hnot1 : ¬((text.length : Int) < (W : Int) - c.length) := by omega
        have hnot2 : ¬((text.length : Int) = (W : Int) - c.length) := by omega
        rw [if_neg hnot1, if_neg hnot2]
        by_cases hcne : c ≠ []
        · rw [if_pos hcne]
          exact ih _ _ _ (linesLE_joinLines hnt (linesLE_of_CurOK hc)) CurOK_nil
        · rw [if_neg hcne]
          push_neg at hcne
          subst hcne
          have hW : (((W : Int) - ((List.length ([] : List Char)) : Int)).toNat) = W := by simp
          rw [hW]
          refine ih _ _ _ (linesLE_joinLines hnt (linesLE_nlfree ?_ ?_)) CurOK_nil
          · exact nlCut_none_take hcut (by simp)
          · simpa using List.length_take_le W text
      · -- a space exists
        dsimp only
        by_cases h1 : (spacePos : Int) < (W : Int) - c.length
        · rw [if_pos h1]
          obtain ⟨hsplen, hspfree, hspdec⟩ := findChar_spec hsp
          rcases hc with ⟨hcfree, hclen⟩ | ⟨u, rfl, _, hulen⟩
          · refine ih _ _ _ hnt (Or.inl ⟨?_, ?_⟩)
            · intro hm
              rcases List.mem_append.mp hm with hm | hm
              · exact hcfree hm
              · exact nlCut_none_take hcut (by omega : ((spacePos + 1 : Nat) : Int) ≤ (W : Int) - c.length) hm
            · have : (text.take (spacePos + 1)).length ≤ spacePos + 1 := List.length_take_le _ _
              rw [List.length_append]
              omega
          · exfalso
            have : (u ++ ['\n']).length = W + 1 := by simp [hulen]
            omega
        · rw [if_neg h1]
          by_cases h2 : (spacePos : Int) = (W : Int) - c.length
          · rw [if_pos h2]
            obtain ⟨hsplen, hspfree, hspdec⟩ := findChar_spec hsp
            rcases hc with ⟨hcfree, hclen⟩ | ⟨u, rfl, _, hulen⟩
            · refine ih _ _ _ hnt (Or.inr ⟨c ++ text.take spacePos, by simp, ?_, ?_⟩)
              · intro hm
                rcases List.mem_append.mp hm with hm | hm
                · exact hcfree hm
                · exact nlCut_none_take hcut (by omega : ((spacePos : Nat) : Int) ≤ (W : Int) - c.length) hm
              · have : (text.take spacePos).length = spacePos := by
                  rw [List.length_take]
                  omega
                rw [List.length_append, this]
                omega
            · exfalso
              have : (u ++ ['\n']).length = W + 1 := by simp [hulen]
              omega
          · rw [if_neg h2]
            by_cases hcne : c ≠ []
            · rw [if_pos hcne]
              exact ih _ _ _ (linesLE_joinLines hnt (linesLE_of_CurOK hc)) CurOK_nil
            · rw [if_neg hcne]
              push_neg at hcne
              subst hcne
              have hW : (((W : Int) - ((List.length ([] : List Char)) : Int)).toNat) = W := by simp
              rw [hW]
              refine ih _ _ _ (linesLE_joinLines hnt (linesLE_nlfree ?_ ?_)) CurOK_nil
              · exact nlCut_none_take hcut (by simp)
              · simpa using List.length_take_le W text
    · -- newline branch: consume through the newline and flush
      dsimp only
      obtain ⟨n, hk, hfind, hle⟩ := nlCut_eq_some hcut
      subst hk
      rcases hc with ⟨hcfree, hclen⟩ | ⟨u, rfl, _, hulen⟩
      · have htake : text.take (n + 1) = text.take n ++ ['\n'] := take_succ_of_findChar hfind
        have hfree : '\n' ∉ c ++ text.take n := by
          intro hm
          rcases List.mem_append.mp hm with hm | hm
          · exact hcfree hm
          · exact (findChar_spec hfind).2.1 hm
        have hlen : (c ++ text.take n).length ≤ W := by
          have : (text.take n).length ≤ n := List.length_take_le _ _
          rw [List.length_append]
          omega
        refine ih _ _ _ (linesLE_joinLines hnt ?_) CurOK_nil
        rw [htake, ← List.append_assoc]
        exact linesLE_snoc_nl hfree hlen
      · exfalso
        have : (u ++ ['\n']).length = W + 1 := by simp [hulen]
        omega

/-- Every display line of `wordWrap W text` fits in `W` columns. -/
theorem wordWrap_linesLE (W : Nat) (t : List Char) : linesLE W (wordWrap W t) := by
  unfold wordWrap
  exact wrapLoop_linesLE W _ _ _ _ linesLE_nil CurOK_nil

theorem normCRLF_of_not_mem : ∀ {s : List Char}, '\r' ∉ s → normCRLF s = s
  | [], _ => rfl
  | [_], _ => rfl
  | c :: d :: rest, h => by
    have hc : c ≠ '\r' := fun he => h (he ▸ List.mem_cons_self c _)
    have hr : '\r' ∉ d :: rest := fun hm => h (List.mem_cons_of_mem c hm)
    rw [normCRLF, if_neg (fun hand => hc hand.1), normCRLF_of_not_mem hr]

theorem not_mem_normCRLF {x : Char} : ∀ {s : List Char}, x ∉ s → x ∉ normCRLF s
  | [], _ => by simp [normCRLF]
  | [c], h => by simpa [normCRLF] using h
  | c :: d :: rest, h => by
    have hc : x ≠ c := fun he => h (he ▸ List.mem_cons_self c _)
    have hdr : x ∉ d :: rest := fun hm => h (List.mem_cons_of_mem c hm)
    have hd : x ≠ d := fun he => hdr (he ▸ List.mem_cons_self d _)
    have hrest : x ∉ rest := fun hm => hdr (List.mem_cons_of_mem d hm)
    rw [normCRLF]
    split_ifs with hand
    · intro hm
      rcases List.mem_cons.mp hm with hm | hm
      · exact hd (hm.trans hand.2.symm)
      · exact not_mem_normCRLF hrest hm
    · intro hm
      rcases List.mem_cons.mp hm with hm | hm
      · exact hc hm
      · exact not_mem_normCRLF hdr hm

theorem not_mem_joinLines {x : Char} (hx : x ≠ '\n') {nt c : List Char}
    (hnt : x ∉ nt) (hc : x ∉ c) : x ∉ joinLines nt c := by
  unfold joinLines
  split_ifs with h1 h2 h3
  · exact hnt
  · exact hc
  · exact fun hm => (List.mem_append.mp hm).elim hnt hc
  · intro hm
    rcases List.mem_append.mp hm with hm | hm
    · exact hnt hm
    · rcases List.mem_cons.mp hm with hm | hm
      · exact hx hm
      · exact hc hm

/-- `wordWrap`'s loop introduces no character other than `'\n'`. -/
theorem not_mem_wrapLoop {x : Char} (hx : x ≠ '\n') (W : Nat) :
    ∀ (fuel : Nat) (text nt c : List Char), x ∉ text → x ∉ nt → x ∉ c →
      x ∉ wrapLoop W fuel text nt c := by
  intro fuel
  induction fuel with
  | zero => intro text nt c _ hnt hc; exact not_mem_joinLines hx hnt hc
  | succ fuel ih =>
    intro text nt c htext hnt hc
    rw [wrapLoop]
    by_cases h0 : text = []
    · rw [if_pos h0]; exact not_mem_joinLines hx hnt hc
    rw [if_neg h0]
    have htake : ∀ n, x ∉ text.take n := fun n hm => htext (List.take_subset _ _ hm)
    have hdrop : ∀ n, x ∉ text.drop n := fun n hm => htext (List.drop_subset _ _ hm)
    have happ : ∀ {a b : List Char}, x ∉ a → x ∉ b → x ∉ a ++ b := fun ha hb hm =>
      (List.mem_append.mp hm).elim ha hb
    by_cases hfit : (text.length : Int) ≤ (W : Int) - c.length
    · rw [if_pos hfit]; exact not_mem_joinLines hx hnt (happ hc htext)
    rw [if_neg hfit]
    rcases hcut : nlCut W c text with _ | k
    · dsimp only
      rcases hsp : findChar ' ' text with _ | sp
      · dsimp only
        by_cases h1 : (text.length : Int) < (W : Int) - c.length
        · rw [if_pos h1]; exact ih _ _ _ (hdrop _) hnt (happ hc (htake _))
        rw [if_neg h1]
        by_cases h2 : (text.length : Int) = (W : Int) - c.length
        · rw [if_pos h2]; exact ih _ _ _ (hdrop _) hnt (happ hc (htake _))
        rw [if_neg h2]
        by_cases h3 : c ≠ []
        · rw [if_pos h3]; exact ih _ _ _ htext (not_mem_joinLines hx hnt hc) (by simp)
        · rw [if_neg h3]
          exact ih _ _ _ (hdrop _) (not_mem_joinLines hx hnt (htake _)) (by simp)
      · dsimp only
        by_cases h1 : (sp : Int) < (W : Int) - c.length
        · rw [if_pos h1]; exact ih _ _ _ (hdrop _) hnt (happ hc (htake _))
        rw [if_neg h1]
        by_cases h2 : (sp : Int) = (W : Int) - c.length
        · rw [if_pos h2]
          refine ih _ _ _ (hdrop _) hnt (happ (happ hc (htake _)) ?_)
          simpa using hx
        rw [if_neg h2]
        by_cases h3 : c ≠ []
        · rw [if_pos h3]; exact ih _ _ _ htext (not_mem_joinLines hx hnt hc) (by simp)
        · rw [if_neg h3]
          exact ih _ _ _ (hdrop _) (not_mem_joinLines hx hnt (htake _)) (by simp)
    · dsimp only
      exact ih _ _ _ (hdrop _) (not_mem_joinLines hx hnt (happ hc (htake _))) (by simp)

theorem not_mem_wordWrap {x : Char} (hx : x ≠ '\n') {W : Nat} {t : List Char}
    (h : x ∉ t) : x ∉ wordWrap W t := by
  unfold wordWrap
  exact not_mem_wrapLoop hx W _ _ _ _ (not_mem_normCRLF h) (by simp) (by simp)

theorem joinLines_nil_left (c : List Char) : joinLines [] c = c := by
  by_cases h : c = []
  · simp [joinLines, h]
  · simp [joinLines, h]

theorem joinLines_nil_right (nt : List Char) : joinLines nt [] = nt := rfl

/-- Flushing a closed line and then gluing more text is the same as gluing
everything at once: the algebraic heart of re-wrap idempotence. -/
theorem joinLines_assoc_nl (nt u rest : List Char) :
    joinLines (joinLines nt (u ++ ['\n'])) rest = joinLines nt (u ++ '\n' :: rest) := by
  rcases rest with _ | ⟨r, rs⟩
  · rw [joinLines_nil_right]
  have hu : (u ++ ['\n']) ≠ [] := by simp
  have hrr : (r :: rs : List Char) ≠ [] := by simp
  by_cases hnt : nt = []
  · subst hnt
    rw [joinLines_nil_left, joinLines_nil_left]
    unfold joinLines
    rw [if_neg hrr, if_neg hu, if_pos (List.getLast?_concat u)]
    simp
  · by_cases hlast : nt.getLast? = some '\n'
    · have hX : joinLines nt (u ++ ['\n']) = nt ++ (u ++ ['\n']) := by
        unfold joinLines
        rw [if_neg hu, if_neg hnt, if_pos hlast]
      have hXlast : (nt ++ (u ++ ['\n'])).getLast? = some '\n' := by
        rw [← List.append_assoc]
        exact List.getLast?_concat _
      rw [hX]
      unfold joinLines
      rw [if_neg hrr, if_neg (by simp [hnt]), if_pos hXlast,
        if_neg (by simp), if_neg hnt, if_pos hlast]
      simp
    · have hX : joinLines nt (u ++ ['\n']) = nt ++ '\n' :: (u ++ ['\n']) := by
        unfold joinLines
        rw [if_neg hu, if_neg hnt, if_neg hlast]
      have hXlast : (nt ++ '\n' :: (u ++ ['\n'])).getLast? = some '\n' := by
        rw [show nt ++ '\n' :: (u ++ ['\n']) = (nt ++ '\n' :: u) ++ ['\n'] by simp]
        exact List.getLast?_concat _
      rw [hX]
      unfold joinLines
      rw [if_neg hrr, if_neg (by simp [hnt]), if_pos hXlast,
        if_neg (by simp), if_neg hnt, if_neg hlast]
      simp

/-- Running the loop on text all of whose display lines fit in `W` columns
reproduces the text: each line is consumed whole through the newline branch. -/
theorem wrapLoop_fix (W : Nat) :
    ∀ (fuel : Nat) (s nt : List Char), s.length < fuel → linesLE W s →
      wrapLoop W fuel s nt [] = joinLines nt s := by
  intro fuel
  induction fuel with
  | zero => intro s nt h _; simp at h
  | succ fuel ih =>
    intro s nt hlen hLE
    rw [wrapLoop]
    by_cases hs : s = []
    · rw [if_pos hs, hs, joinLines_nil_right]
    rw [if_neg hs]
    have hslen : 1 ≤ s.length := List.length_pos.mpr hs
    by_cases hfit : (s.length : Int) ≤ (W : Int) - ([] : List Char).length
    · rw [if_pos hfit, List.nil_append]
    · rw [if_neg hfit]
      have hWs : W < s.length := by
        simp only [List.length_nil, Nat.cast_zero, Int.sub_zero] at hfit
        omega
      rcases hnl : findChar '\n' s with _ | n
      · exfalso
        have hone : s ∈ lines s := by
          rw [lines_of_not_mem_nl (findChar_eq_none hnl)]
          simp
        have := hLE s hone
        omega
      · obtain ⟨hnlt, hnfree, hndec⟩ := findChar_spec hnl
        have hlines : lines s = s.take n :: lines (s.drop (n + 1)) := by
          conv_lhs => rw [hndec]
          exact lines_append_nl_cons hnfree _
        have hnW : n ≤ W := by
          have h1 := hLE (s.take n) (by rw [hlines]; simp)
          rwa [findChar_take_length hnl] at h1
        have hcut : nlCut W [] s = some (n + 1) := by
          have hcond : (n : Int) + 1 ≤ ((W : Int) - ((([] : List Char).length : Nat) : Int)) + 1 := by
            simp only [List.length_nil, Nat.cast_zero, Int.sub_zero]
            omega
          unfold nlCut
          rw [hnl]
          exact if_pos hcond
        rw [hcut]
        dsimp only
        rw [List.nil_append]
        have hrec := ih (s.drop (n + 1)) (joinLines nt (s.take (n + 1)))
          (by rw [List.length_drop]; omega)
          (fun l hl => hLE l (by rw [hlines]; exact List.mem_cons_of_mem _ hl))
        rw [hrec, take_succ_of_findChar hnl, joinLines_assoc_nl, ← hndec]

/-- `wordWrap` is the identity on carriage-return-free text whose display lines
already fit in `W` columns. -/
theorem wordWrap_fix {W : Nat} {s : List Char} (hLE : linesLE W s) (hcr : '\r' ∉ s) :
    wordWrap W s = s := by
  unfold wordWrap
  rw [normCRLF_of_not_mem hcr, wrapLoop_fix W _ s [] (by omega) hLE, joinLines_nil_left]

theorem wordWrap_cr_free {W : Nat} {t : List Char} (h : '\r' ∉ t) :
    '\r' ∉ wordWrap W t :=
  not_mem_wordWrap (by decide) h

/-- `wordWrap` is idempotent on carriage-return-free text. -/
theorem wordWrap_idem (W : Nat) {t : List Char} (h : '\r' ∉ t) :
    wordWrap W (wordWrap W t) = wordWrap W t :=
  wordWrap_fix (wordWrap_linesLE W t) (wordWrap_cr_free h)

/-! ## The scroll-offset invariant -/

theorem applyOp_rows (op : ScrollOp) (s : State) : (applyOp op s).rows = s.rows := by
  cases op <;>
    simp only [applyOp, scrollUp, scrollDown, pageUp, pageDown, goToTop, goToBottom] <;>
    split_ifs <;> rfl

theorem applyOp_text (op : ScrollOp) (s : State) : (applyOp op s).text = s.text := by
  cases op <;>
    simp only [applyOp, scrollUp, scrollDown, pageUp, pageDown, goToTop, goToBottom] <;>
    split_ifs <;> rfl

theorem applyOp_inv (op : ScrollOp) {s : State} (hrows : 1 ≤ s.rows)
    (hlen : s.rows ≤ s.text.length) (h : ScrollInv s) : ScrollInv (applyOp op s) := by
  obtain ⟨h0, h1⟩ := h
  have hri : (1 : Int) ≤ (s.rows : Int) := by exact_mod_cast hrows
  have hli : (s.rows : Int) ≤ (s.text.length : Int) := by exact_mod_cast hlen
  cases op <;>
    simp only [applyOp, scrollUp, scrollDown, pageUp, pageDown, goToTop, goToBottom,
      ScrollInv] <;>
    split_ifs <;>
    refine ⟨?_, ?_⟩ <;>
    (try simp only []) <;> omega

theorem runOps_rows (ops : List ScrollOp) : ∀ s : State, (runOps ops s).rows = s.rows := by
  induction ops with
  | nil => intro s; rfl
  | cons op ops ih => intro s; exact (ih (applyOp op s)).trans (applyOp_rows op s)

theorem runOps_text (ops : List ScrollOp) :
    ∀ s : State, (runOps ops s).text = s.text := by
  induction ops with
  | nil => intro s; rfl
  | cons op ops ih => intro s; exact (ih (applyOp op s)).trans (applyOp_text op s)

theorem runOps_inv (ops : List ScrollOp) :
    ∀ {s : State}, 1 ≤ s.rows → s.rows ≤ s.text.length → ScrollInv s →
      ScrollInv (runOps ops s) := by
  induction ops with
  | nil => intro s _ _ h; exact h
  | cons op ops ih =>
    intro s hrows hlen h
    have hstep := applyOp_inv op hrows hlen h
    have hr := applyOp_rows op s
    have ht := applyOp_text op s
    exact ih (hr ▸ hrows) (by rw [hr, ht]; exact hlen) hstep

end TextRendererCore

namespace Terminal

/-! ## Lemmas about the input queue when no bytes are buffered -/

theorem recvResponseImpl_idle (fuel : Nat) (pending : List (List Nat)) :
    recvResponseImpl true (fuel + 1) [] false ⟨[], [], pending⟩ =
      some ([], ⟨[], [], pending⟩) := by
  rw [recvResponseImpl]
  simp [readByte]

theorem recvResponse_idle (fuel : Nat) (pending : List (List Nat)) :
    recvResponse true (fuel + 1) ⟨[], [], pending⟩ = some ([], ⟨[], [], pending⟩) := by
  rw [recvResponse]
  rw [show (State.mk [] [] pending).leftover.length + (State.mk [] [] pending).serial.length + 4
      = 3 + 1 from rfl]
  rw [recvResponseImpl_idle 3 pending]
  simp [UP, DOWN, LEFT, RIGHT]

theorem recvResponseTop_idle (pending : List (List Nat)) :
    recvResponseTop true ⟨[], [], pending⟩ = some ([], ⟨[], [], pending⟩) := by
  unfold recvResponseTop
  exact recvResponse_idle 3 pending

theorem recvInput_cons (l s : List Nat) (v : List Nat) (rest : List (List Nat)) :
    recvInput ⟨l, s, v :: rest⟩ = some (some v, ⟨l, s, rest⟩) := by
  simp [recvInput, dequeue]

theorem recvInput_idle_nil :
    recvInput ⟨[], [], ([] : List (List Nat))⟩ = some (none, ⟨[], [], []⟩) := rfl

theorem peekInput_cons (l s : List Nat) (v : List Nat) (rest : List (List Nat)) :
    peekInput ⟨l, s, v :: rest⟩ = some (some v, ⟨l, s, v :: rest⟩) := by
  simp [peekInput]

theorem peekInput_idle_nil :
    peekInput ⟨[], [], ([] : List (List Nat))⟩ = some (none, ⟨[], [], []⟩) := rfl

/-- With nothing buffered on the serial line, the dedup loop consumes exactly
the leading run of queued frames equal to `v`. -/
theorem dedupLoop_queue (v : List Nat) :
    ∀ (pending : List (List Nat)) (fuel : Nat), pending.length < fuel →
      dedupLoop v fuel ⟨[], [], pending⟩ = ⟨[], [], pending.dropWhile (· == v)⟩ := by
  intro pending
  induction pending with
  | nil =>
    intro fuel hf
    match fuel, hf with
    | fuel + 1, _ =>
      rw [dedupLoop, peekInput_idle_nil]
      simp
  | cons u rest ih =>
    intro fuel hf
    match fuel, hf with
    | fuel + 1, hf =>
      rw [dedupLoop, peekInput_cons]
      dsimp only
      by_cases hu : u = v
      · subst hu
        rw [if_pos rfl, recvInput_cons]
        dsimp only
        rw [ih fuel (by simpa using hf)]
        simp [List.dropWhile_cons]
      · rw [if_neg (by simpa using hu)]
        simp [List.dropWhile_cons, hu]

/-- With nothing buffered on the serial line, one main-loop iteration dequeues
the head input; when it is an arrow scroll key the following run of identical
frames is discarded with it, and nothing else is ever discarded.  The second
component counts the `scrollUp()` calls the iteration performs. -/
theorem mainIteration_queue (v : List Nat) (rest : List (List Nat)) :
    mainIteration ⟨[], [], v :: rest⟩ =
      (⟨[], [], if v = UP ∨ v = DOWN then rest.dropWhile (· == v) else rest⟩,
       if v = UP then 1 else 0) := by
  unfold mainIteration
  rw [recvInput_cons]
  dsimp only
  by_cases hv : v = UP ∨ v = DOWN
  · rw [if_pos (by simpa using hv), if_pos hv]
    have hd := dedupLoop_queue v rest (rest.length + 0 + 2) (by omega)
    exact congrArg (fun z => (z, if v = UP then 1 else 0)) hd
  · rw [if_neg (by simpa using hv), if_neg hv]

end Terminal

namespace Renderer

theorem displayError_input (st : RState) (e : List Char) :
    (displayError st e).1.input = st.input := by
  unfold displayError
  split_ifs <;> rfl

theorem displayError_page (st : RState) (e : List Char) :
    (displayError st e).1.page = st.page := by
  unfold displayError
  split_ifs <;> rfl

theorem displayError_lastError (st : RState) (e : List Char) :
    (displayError st e).1.lastError = e ∨ (e = st.lastError ∧ (displayError st e).1 = st) := by
  unfold displayError
  split_ifs with h
  · exact Or.inr ⟨h, rfl⟩
  · exact Or.inl rfl

/-- Submitting `!N` with `N` out of range only repaints the error banner:
the renderer state is `displayError`'s, no action is returned, no scrolling
happens. -/
theorem processEnter_unknown_link (f : List Char → List Char → List Char) (st : RState)
    (ds : List Char) (n : Int)
    (hstrip : pyStrip st.input = '!' :: ds)
    (hint : pyInt ds = some n)
    (hrange : n < 1 ∨ (st.page.links.length : Int) < n) :
    processEnter f st =
      ⟨(displayError st "Unknown link navigation request!".toList).1, none,
       (displayError st "Unknown link navigation request!".toList).2, none⟩ := by
  unfold processEnter
  rw [hstrip]
  dsimp only
  rw [if_neg (by simp : ¬('!' :: ds = [])),
    if_pos (by simp : ('!' :: ds : List Char).head? = some '!'),
    show ('!' :: ds : List Char).drop 1 = ds from rfl, hint]
  dsimp only
  have hcond : (decide (n - 1 < 0) || decide ((st.page.links.length : Int) ≤ n - 1)) = true := by
    simp only [Bool.or_eq_true, decide_eq_true_eq]
    omega
  rw [if_pos hcond]

end Renderer

namespace Wiki

theorem getAllPages_ne_error {domains : List WDomain} {filt : Option (List Char)}
    {d : WDomain} {p : WPage} (h : (d, p) ∈ getAllPages domains filt) :
    p.path ≠ d.error := by
  unfold getAllPages at h
  rw [List.mem_flatMap] at h
  obtain ⟨dom, _, hmem⟩ := h
  have hmem2 : (d, p) ∈ (dom.pages.filter (fun q => q.path != dom.error)).map
      (fun q => (dom, q)) := by
    cases filt with
    | none => exact hmem
    | some d0 =>
      dsimp only at hmem
      split_ifs at hmem with hroot
      · exact hmem
      · simp at hmem
  rw [List.mem_map] at hmem2
  obtain ⟨q, hq, heq⟩ := hmem2
  injection heq with hd hp
  subst hd
  subst hp
  have hne := (List.mem_filter.mp hq).2
  rwa [bne_iff_ne] at hne

end Wiki

/-! ## The claims -/

/-- C1: for every input text and every terminal width `W ≥ 1`, every line
produced by `TextRendererCore.wordWrap` (splitting its result on newline) is at
most `W` columns long; an unsplittable word hard-split at the column boundary
may occupy exactly `W` columns, which the bound admits. -/
theorem claim_C1_wordWrap_width_bound (t : List Char) (W : Nat) (hW : 1 ≤ W) :
    ∀ l ∈ TextRendererCore.lines (TextRendererCore.wordWrap W t), l.length ≤ W :=
  TextRendererCore.wordWrap_linesLE W t

/-- Witness for C1: width 10 on the spec's example text. -/
theorem claim_C1_wordWrap_width_bound_witness :
    1 ≤ 10 ∧
    ∀ l ∈ TextRendererCore.lines (TextRendererCore.wordWrap 10 "The quick brown fox".toList),
      l.length ≤ 10 :=
  ⟨by decide, claim_C1_wordWrap_width_bound "The quick brown fox".toList 10 (by decide)⟩

/-- C2 (counterexample): wrapping "The quick brown fox" at width 10 does not
produce the lines "The quick" and "brown fox": the first line retains a
trailing space (the deferred-word branch flushes `curLine` as is, including the
trailing space appended after "quick"). -/
theorem claim_C2_counterexample :
    TextRendererCore.lines (TextRendererCore.wordWrap 10 "The quick brown fox".toList) ≠
      ["The quick".toList, "brown fox".toList] := by decide

/-- C2 (amended): wrapping "The quick brown fox" at width 10 produces exactly
the two lines "The quick " (with a trailing space, 10 columns) and
"brown fox". -/
theorem claim_C2_wrap_example :
    TextRendererCore.lines (TextRendererCore.wordWrap 10 "The quick brown fox".toList) =
      ["The quick ".toList, "brown fox".toList] := by decide

/-- C3 (counterexample): word-wrap is not idempotent on every text: wrapping
"a\rb" at width 2 hard-splits after the carriage return, producing "a\r\nb",
and the second pass's CRLF normalisation collapses the new "\r\n" pair. -/
theorem claim_C3_counterexample :
    TextRendererCore.wordWrap 2 (TextRendererCore.wordWrap 2 "a\rb".toList) ≠
      TextRendererCore.wordWrap 2 "a\rb".toList := by decide

/-- C3 (amended): for every width `W ≥ 1` and every text containing no carriage
return, wrapping the already-wrapped text again at the same width returns it
unchanged. -/
theorem claim_C3_wordWrap_idempotent (W : Nat) (t : List Char) (hW : 1 ≤ W)
    (hcr : '\r' ∉ t) :
    TextRendererCore.wordWrap W (TextRendererCore.wordWrap W t) =
      TextRendererCore.wordWrap W t :=
  TextRendererCore.wordWrap_idem W hcr

/-- Witness for the amended C3. -/
theorem claim_C3_wordWrap_idempotent_witness :
    (1 ≤ 10 ∧ '\r' ∉ "The quick brown fox".toList) ∧
    TextRendererCore.wordWrap 10 (TextRendererCore.wordWrap 10 "The quick brown fox".toList) =
      TextRendererCore.wordWrap 10 "The quick brown fox".toList :=
  ⟨⟨by decide, by decide⟩,
   claim_C3_wordWrap_idempotent 10 "The quick brown fox".toList (by decide) (by decide)⟩

/-- C4 (counterexample): when the wrapped text has fewer lines than the
viewport has rows (here 1 line, 2 rows), a single `pageDown` from offset 0
drives the scroll offset to -1, outside `[0, max 0 (lineCount - viewportRows)]
= [0, 0]`: the code clamps to `len(text) - rows` without the `max 0`. -/
theorem claim_C4_counterexample :
    (TextRendererCore.runOps [TextRendererCore.ScrollOp.pageDown] ⟨2, [[]], 0⟩).line = -1 ∧
    ¬(0 ≤ (TextRendererCore.runOps [TextRendererCore.ScrollOp.pageDown] ⟨2, [[]], 0⟩).line ∧
      (TextRendererCore.runOps [TextRendererCore.ScrollOp.pageDown] ⟨2, [[]], 0⟩).line ≤
        max 0 ((1 : Int) - 2)) := by decide

/-- C4 (amended): provided the wrapped text has at least as many lines as the
viewport has rows, the scroll offset stays in
`[0, max 0 (lineCount - viewportRows)]` after every sequence of the six scroll
operations starting from offset 0. -/
theorem claim_C4_scroll_offset_invariant (rows : Nat) (text : List (List Char))
    (hrows : 1 ≤ rows) (hlen : rows ≤ text.length)
    (ops : List TextRendererCore.ScrollOp) :
    0 ≤ (TextRendererCore.runOps ops ⟨rows, text, 0⟩).line ∧
    (TextRendererCore.runOps ops ⟨rows, text, 0⟩).line ≤
      max 0 ((text.length : Int) - rows) := by
  have hinit : TextRendererCore.ScrollInv ⟨rows, text, 0⟩ := by
    constructor
    · exact le_refl 0
    · show (0 : Int) ≤ (text.length : Int) - (rows : Int)
      have : (rows : Int) ≤ (text.length : Int) := by exact_mod_cast hlen
      omega
  obtain ⟨h0, h1⟩ := TextRendererCore.runOps_inv ops hrows hlen hinit
  rw [TextRendererCore.runOps_text, TextRendererCore.runOps_rows] at h1
  exact ⟨h0, h1.trans (le_max_right _ _)⟩

/-- Witness for the amended C4: three lines, two rows, a page down followed by
a scroll up and a jump to the bottom. -/
theorem claim_C4_scroll_offset_invariant_witness :
    (1 ≤ 2 ∧ 2 ≤ ([[], [], []] : List (List Char)).length) ∧
    (0 ≤ (TextRendererCore.runOps
        [TextRendererCore.ScrollOp.pageDown, TextRendererCore.ScrollOp.scrollUp,
         TextRendererCore.ScrollOp.goToBottom] ⟨2, [[], [], []], 0⟩).line ∧
     (TextRendererCore.runOps
        [TextRendererCore.ScrollOp.pageDown, TextRendererCore.ScrollOp.scrollUp,
         TextRendererCore.ScrollOp.goToBottom] ⟨2, [[], [], []], 0⟩).line ≤
       max 0 ((([[], [], []] : List (List Char)).length : Int) - 2)) :=
  ⟨⟨by decide, by decide⟩,
   claim_C4_scroll_offset_invariant 2 [[], [], []] (by decide) (by decide)
     [TextRendererCore.ScrollOp.pageDown, TextRendererCore.ScrollOp.scrollUp,
      TextRendererCore.ScrollOp.goToBottom]⟩

/-- C5: `Navigation.back` fails exactly when `canGoBack` is false, leaving the
stack unchanged; otherwise it pops the top identifier and returns the page
resolved from the new top; and after `navigate a` then `navigate b` from a
fresh stack, `canGoBack` holds, `back` returns the page for `a`, and
`canGoBack` becomes false again. -/
theorem claim_C5_back_contract {P : Type} (f : List Char → P) (a b : List Char) :
    (∀ nav : Navigation.State,
      (Navigation.back f nav).2 = Except.error () ↔ Navigation.canGoBack nav = false) ∧
    (∀ nav : Navigation.State, Navigation.canGoBack nav = false →
      Navigation.back f nav = (nav, Except.error ())) ∧
    (∀ nav : Navigation.State, Navigation.canGoBack nav = true →
      Navigation.back f nav =
        (⟨nav.stack.dropLast⟩, Except.ok (f (nav.stack.dropLast.getLastD [])))) ∧
    (Navigation.canGoBack (Navigation.navigate f (Navigation.navigate f ⟨[]⟩ a).1 b).1 = true ∧
     (Navigation.back f (Navigation.navigate f (Navigation.navigate f ⟨[]⟩ a).1 b).1).2 =
       Except.ok (f a) ∧
     Navigation.canGoBack
       (Navigation.back f (Navigation.navigate f (Navigation.navigate f ⟨[]⟩ a).1 b).1).1 =
       false) := by
  refine ⟨?_, ?_, ?_, ?_, ?_, ?_⟩
  · intro nav
    cases hb : Navigation.canGoBack nav <;> simp [Navigation.back, hb]
  · intro nav hb
    simp [Navigation.back, hb]
  · intro nav hb
    simp [Navigation.back, hb]
  · simp [Navigation.navigate, Navigation.canGoBack]
  · simp [Navigation.navigate, Navigation.back, Navigation.canGoBack, List.dropLast]
  · simp [Navigation.navigate, Navigation.back, Navigation.canGoBack, List.dropLast]

/-- Witness for C5: a failing `back` on a one-element stack and the
two-navigations scenario on concrete identifiers. -/
theorem claim_C5_back_contract_witness :
    Navigation.back (fun u => u) ⟨["x".toList]⟩ = (⟨["x".toList]⟩, Except.error ()) ∧
    (Navigation.back (fun u => u)
      (Navigation.navigate (fun u => u)
        (Navigation.navigate (fun u => u) ⟨[]⟩ "a".toList).1 "b".toList).1).2 =
      Except.ok "a".toList := by
  have h := claim_C5_back_contract (fun u : List Char => u) "a".toList "b".toList
  exact ⟨h.2.1 ⟨["x".toList]⟩ (by decide), h.2.2.2.2.1⟩

/-- C6: with the frame `ESC [ 6 ; 1 2 R` followed by the literal byte `x`
pending, `fetchCursor` returns `(6, 12)` and pushes `x` back as leftover
rather than consuming it, and the next `recvInput` dequeues and returns the
literal `x`. -/
theorem claim_C6_fetchCursor_frame :
    Terminal.fetchCursor ⟨[], [27, 91, 54, 59, 49, 50, 82, 120], []⟩ =
      some ((6, 12), ⟨[120], [], []⟩) ∧
    Terminal.recvInput ⟨[120], [], []⟩ = some (some [120], ⟨[], [], []⟩) := by
  constructor <;> rfl

/-- C7: five consecutive identical Up-arrow frames queued as input are all
consumed by one main-loop iteration, which performs exactly one `scrollUp()`
call; in general an iteration discards exactly the run of queued frames equal
to the dequeued scroll-direction frame — a head input of any other class
removes only itself from the queue. -/
theorem claim_C7_scroll_dedup :
    Terminal.mainIteration
        ⟨[], [], [Terminal.UP, Terminal.UP, Terminal.UP, Terminal.UP, Terminal.UP]⟩ =
      (⟨[], [], []⟩, 1) ∧
    ∀ (v : List Nat) (rest : List (List Nat)),
      Terminal.mainIteration ⟨[], [], v :: rest⟩ =
        (⟨[], [],
          if v = Terminal.UP ∨ v = Terminal.DOWN then rest.dropWhile (· == v) else rest⟩,
         if v = Terminal.UP then 1 else 0) := by
  refine ⟨?_, Terminal.mainIteration_queue⟩
  rw [Terminal.mainIteration_queue]
  simp [Terminal.UP]

/-- C8: submitting the link command `!N` with `N` out of range for the current
text page displays exactly the error "Unknown link navigation request!"
(through `displayError`) and changes nothing else: no action is returned, the
command buffer and displayed page are untouched, no scrolling happens, and the
navigation stack of the main loop is unchanged. -/
theorem claim_C8_unknown_link (f : List Char → List Char → List Char)
    (st : Renderer.RState) (ds : List Char) (n : Int)
    (hstrip : Renderer.pyStrip st.input = '!' :: ds)
    (hint : Renderer.pyInt ds = some n)
    (hrange : n < 1 ∨ (st.page.links.length : Int) < n) :
    Renderer.processEnter f st =
      ⟨(Renderer.displayError st "Unknown link navigation request!".toList).1, none,
       (Renderer.displayError st "Unknown link navigation request!".toList).2, none⟩ ∧
    (Renderer.processEnter f st).st.input = st.input ∧
    (Renderer.processEnter f st).st.page = st.page ∧
    ∀ (randomPick : List Char) (nav : Navigation.State),
      Renderer.navAfterAction randomPick nav (Renderer.processEnter f st).action = nav := by
  have h := Renderer.processEnter_unknown_link f st ds n hstrip hint hrange
  refine ⟨h, ?_, ?_, ?_⟩
  · rw [h]
    exact Renderer.displayError_input st _
  · rw [h]
    exact Renderer.displayError_page st _
  · intro rp nav
    rw [h]
    rfl

/-- Witness for C8: `!3` on a page with exactly two links. -/
theorem claim_C8_unknown_link_witness :
    (Renderer.pyStrip ("!3".toList) = '!' :: "3".toList ∧
     Renderer.pyInt "3".toList = some 3) ∧
    (Renderer.processEnter (fun p d => p ++ d)
        ⟨24, 80, "!3".toList, [], ⟨"/MAIN".toList, "NX.TEST".toList,
          ["/A".toList, "/B".toList]⟩⟩).st.input = "!3".toList := by
  have h := claim_C8_unknown_link (fun p d => p ++ d)
    ⟨24, 80, "!3".toList, [], ⟨"/MAIN".toList, "NX.TEST".toList,
      ["/A".toList, "/B".toList]⟩⟩ "3".toList 3 (by decide) (by decide) (by decide)
  exact ⟨⟨by decide, by decide⟩, h.2.1⟩

/-- C9: `Renderer.displayError` is idempotent on consecutive duplicate
messages: a second `displayError` with the message just displayed sends
nothing to the terminal and leaves the whole renderer state (including
`lastError`) unchanged. -/
theorem claim_C9_displayError_idempotent (st : Renderer.RState) (e : List Char) :
    Renderer.displayError (Renderer.displayError st e).1 e =
      ((Renderer.displayError st e).1, []) := by
  by_cases h : e = st.lastError
  · simp [Renderer.displayError, h]
  · simp [Renderer.displayError, h]

/-- C10: `Wiki.getAllPages`, with or without a domain filter, never yields a
page whose path equals its own domain's designated error page; hence the
`random` command, which picks an element of `getAllPages()`, never navigates to
a domain's error page. -/
theorem claim_C10_no_error_page (domains : List Wiki.WDomain)
    (filt : Option (List Char)) (d : Wiki.WDomain) (p : Wiki.WPage)
    (h : (d, p) ∈ Wiki.getAllPages domains filt) : p.path ≠ d.error :=
  Wiki.getAllPages_ne_error h

/-- Witness for C10 on a one-domain wiki whose error page sits alongside an
ordinary page. -/
theorem claim_C10_no_error_page_witness :
    ((⟨"D".toList, "/A".toList, "/ERR".toList,
        [⟨"A page".toList, "/A".toList, "".toList⟩,
         ⟨"Err page".toList, "/ERR".toList, "".toList⟩]⟩,
      (⟨"A page".toList, "/A".toList, "".toList⟩ : Wiki.WPage)) ∈
      Wiki.getAllPages
        [⟨"D".toList, "/A".toList, "/ERR".toList,
          [⟨"A page".toList, "/A".toList, "".toList⟩,
           ⟨"Err page".toList, "/ERR".toList, "".toList⟩]⟩] none) ∧
    (⟨"A page".toList, "/A".toList, "".toList⟩ : Wiki.WPage).path ≠
      (⟨"D".toList, "/A".toList, "/ERR".toList,
        [⟨"A page".toList, "/A".toList, "".toList⟩,
         ⟨"Err page".toList, "/ERR".toList, "".toList⟩]⟩ : Wiki.WDomain).error :=
  ⟨by decide,
   claim_C10_no_error_page
     [⟨"D".toList, "/A".toList, "/ERR".toList,
       [⟨"A page".toList, "/A".toList, "".toList⟩,
        ⟨"Err page".toList, "/ERR".toList, "".toList⟩]⟩] none
     ⟨"D".toList, "/A".toList, "/ERR".toList,
       [⟨"A page".toList, "/A".toList, "".toList⟩,
        ⟨"Err page".toList, "/ERR".toList, "".toList⟩]⟩
     ⟨"A page".toList, "/A".toList, "".toList⟩ (by decide)⟩

end VTNDB
